import Mathlib

/-!
Verification of the murmur push-to-talk core: the reactive store
(`src/state.js`) and the room/admission/whisper module (peer module).
Definitions are shallow embeddings of the JavaScript source; theorems
settle the specification claims about them.
-/

namespace Murmur

/-!
## Reactive store (src/state.js)

The store is a record of named fields behind a proxy whose `set` trap
suppresses writes of an unchanged value and otherwise notifies
subscribers, unless a batch is in progress, in which case the change is
buffered.  `batch` runs a body, then coalesces the buffered changes per
field (keeping the first recorded `oldValue` and the last `value`) and
emits one notification per distinct changed field in first-change order.
We model the store's field map as a function `String → V`, a batch body
as the list of assignments it performs, and notifications as the list of
`Change` records handed to subscribers.
-/

structure Change (V : Type) where
  prop : String
  value : V
  oldValue : V
deriving Repr, DecidableEq

structure Store (V : Type) where
  target : String → V
  batching : Bool
  pendingChanges : List (Change V)

/-- The proxy `set` trap of src/state.js lines 41-49: a write of the
current value is dropped; otherwise the field is updated and the change
either buffered (while batching) or emitted immediately. -/
def storeSet {V : Type} [DecidableEq V] (s : Store V) (prop : String) (value : V) :
    Store V × List (Change V) :=
  let old := s.target prop
  if old = value then (s, [])
  else
    let s1 : Store V := { s with target := fun p => if p = prop then value else s.target p }
    if s1.batching then
      ({ s1 with pendingChanges := s1.pendingChanges ++ [⟨prop, value, old⟩] }, [])
    else (s1, [⟨prop, value, old⟩])

/-- Sequential execution of a batch body (the assignments performed by
the function passed to `batch`). -/
def execBody {V : Type} [DecidableEq V] (s : Store V) : List (String × V) → Store V
  | [] => s
  | a :: rest => execBody (storeSet s a.1 a.2).1 rest

/-- One step of the coalescing loop of src/state.js lines 63-66: an
already-seen field keeps its entry (its recorded `oldValue`) and only
its `value` is overwritten; a fresh field is appended. -/
def cstep {V : Type} (acc : List (Change V)) (c : Change V) : List (Change V) :=
  if acc.any (fun d => d.prop == c.prop) then
    acc.map (fun d => if d.prop == c.prop then { d with value := c.value } else d)
  else acc ++ [c]

/-- The `Map`-building loop of `batch`, iterating the buffered changes
in order; `Map.values()` iteration order is insertion order, which the
list order of the accumulator mirrors. -/
def coalesce {V : Type} (l : List (Change V)) : List (Change V) := l.foldl cstep []

/-- Model of `batch(fn)` of src/state.js lines 56-70: run the body with buffering
on, then coalesce the buffered changes and emit them. -/
def batchRun {V : Type} [DecidableEq V] (s : Store V) (body : List (String × V)) :
    Store V × List (Change V) :=
  let s1 := execBody { s with batching := true } body
  let s2 : Store V := { s1 with batching := false }
  let changes := s2.pendingChanges
  (({ s2 with pendingChanges := [] }), coalesce changes)

/-- Specification-level replay of a batch body: the list of changes the
`set` trap records, together with the evolving field map. -/
def runBody {V : Type} [DecidableEq V] (t : String → V) : List (String × V) → List (Change V)
  | [] => []
  | a :: rest =>
      if t a.1 = a.2 then runBody t rest
      else ⟨a.1, a.2, t a.1⟩ :: runBody (fun p => if p = a.1 then a.2 else t p) rest

/-- The changes recorded for one fixed field, as a function of that
field's starting value and the successive values assigned to it. -/
def recordedX {V : Type} [DecidableEq V] (X : String) (v : V) : List V → List (Change V)
  | [] => []
  | w :: ws => if v = w then recordedX X v ws else ⟨X, w, v⟩ :: recordedX X w ws

/-- The effect of the coalescing loop restricted to one field: the first
change is kept and later changes only overwrite its `value`. -/
def updX {V : Type} : List (Change V) → List (Change V) → List (Change V)
  | cur, [] => cur
  | cur, c :: l => if cur.isEmpty then updX [c] l
      else updX (cur.map (fun e => { e with value := c.value })) l

/-- First-occurrence order of names, relative to a list of already-seen
names. -/
def newFirsts (seen : List String) : List String → List String
  | [] => []
  | p :: ps => if seen.contains p then newFirsts seen ps else p :: newFirsts (p :: seen) ps

/-- First-occurrence order of a list of names. -/
def firstOccurrences (l : List String) : List String := newFirsts [] l

lemma any_eq_not_isEmpty_filter {α : Type} (p : α → Bool) (l : List α) :
    l.any p = !(l.filter p).isEmpty := by
  induction l with
  | nil => rfl
  | cons a l ih => by_cases h : p a <;> simp [List.any_cons, h, List.filter_cons, ih]

lemma filter_map_propX {V : Type} (X : String) (f : Change V → Change V)
    (hf : ∀ d, (f d).prop = d.prop) (l : List (Change V)) :
    (l.map f).filter (fun c => c.prop == X) = (l.filter (fun c => c.prop == X)).map f := by
  induction l with
  | nil => rfl
  | cons a l ih =>
      by_cases h : a.prop == X <;>
        simp [List.filter_cons, List.map_cons, hf, h, ih]

lemma storeSet_of_batching {V : Type} [DecidableEq V] (s : Store V) (hs : s.batching = true)
    (p : String) (v : V) :
    (storeSet s p v).1 = if s.target p = v then s else
      ⟨fun q => if q = p then v else s.target q, true,
        s.pendingChanges ++ [⟨p, v, s.target p⟩]⟩ := by
  unfold storeSet
  by_cases h : s.target p = v
  · simp [h]
  · simp only [h, if_neg h, hs]
    simp [hs]

lemma execBody_spec {V : Type} [DecidableEq V] (body : List (String × V)) :
    ∀ (s : Store V), s.batching = true →
      (execBody s body).pendingChanges = s.pendingChanges ++ runBody s.target body ∧
      (execBody s body).batching = true := by
  induction body with
  | nil => intro s hs; simp [execBody, runBody, hs]
  | cons a rest ih =>
      intro s hs
      rw [execBody, storeSet_of_batching s hs]
      by_cases h : s.target a.1 = a.2
      · rw [if_pos h]
        have := ih s hs
        rw [runBody]
        simpa [h] using this
      · rw [if_neg h]
        have := ih ⟨fun q => if q = a.1 then a.2 else s.target q, true,
          s.pendingChanges ++ [⟨a.1, a.2, s.target a.1⟩]⟩ rfl
        refine ⟨?_, this.2⟩
        rw [runBody, if_neg h]
        simpa [List.append_assoc] using this.1

lemma runBody_filterX {V : Type} [DecidableEq V] (X : String) :
    ∀ (body : List (String × V)) (t : String → V),
      (runBody t body).filter (fun c => c.prop == X) =
        recordedX X (t X) ((body.filter (fun a => a.1 == X)).map (·.2)) := by
  intro body
  induction body with
  | nil => intro t; simp [runBody, recordedX]
  | cons a rest ih =>
      intro t
      simp only [runBody, List.filter_cons]
      by_cases hp : a.1 = X
      · subst hp
        by_cases hv : t a.1 = a.2
        · simp only [if_pos hv, beq_self_eq_true, if_true, List.map_cons, recordedX,
            if_pos hv, ih t]
        · simp only [if_neg hv, List.filter_cons, beq_self_eq_true, if_true,
            List.map_cons, recordedX, if_neg hv]
          have := ih (fun p => if p = a.1 then a.2 else t p)
          simpa using this
      · have hbeq : (a.1 == X) = false := by simp [hp]
        by_cases hv : t a.1 = a.2
        · simp [hv, hbeq, ih t]
        · simp only [if_neg hv, List.filter_cons, hbeq]
          have hXne : X ≠ a.1 := fun h => hp h.symm
          have := ih (fun p => if p = a.1 then a.2 else t p)
          simpa [hXne, hbeq] using this

lemma filter_eq_nil_of_any_false {V : Type} (X : String) (acc : List (Change V))
    (hacc : (acc.any fun d => d.prop == X) = false) :
    acc.filter (fun d => d.prop == X) = [] := by
  induction acc with
  | nil => rfl
  | cons a l ih =>
      rw [List.any_cons, Bool.or_eq_false_iff] at hacc
      rw [List.filter_cons, hacc.1]
      simpa using ih hacc.2

lemma cstep_prop_preserving {V : Type} (c : Change V) (d : Change V) :
    ((fun d => if d.prop == c.prop then { d with value := c.value } else d) d).prop
      = d.prop := by
  by_cases h : (d.prop == c.prop) = true <;> simp [h]

lemma foldl_cstep_filterX {V : Type} (X : String) :
    ∀ (l acc : List (Change V)),
      ((l.foldl cstep acc).filter (fun c => c.prop == X)) =
        updX (acc.filter (fun c => c.prop == X)) (l.filter (fun c => c.prop == X)) := by
  intro l
  induction l with
  | nil => intro acc; simp [updX]
  | cons c l ih =>
      intro acc
      simp only [List.foldl_cons, List.filter_cons]
      by_cases hc : (c.prop == X) = true
      · have hcX : c.prop = X := eq_of_beq hc
        cases hacc : acc.any (fun d => d.prop == c.prop) with
        | true =>
            have hmap : cstep acc c = acc.map
                (fun d => if d.prop == c.prop then { d with value := c.value } else d) := by
              simp [cstep, hacc]
            have hfilter : (cstep acc c).filter (fun d => d.prop == X) =
                (acc.filter (fun d => d.prop == X)).map
                  (fun e => { e with value := c.value }) := by
              rw [hmap, filter_map_propX X _ (cstep_prop_preserving c)]
              refine List.map_congr_left ?_
              intro e he
              have h1 : e.prop = X := eq_of_beq (List.mem_filter.mp he).2
              simp [h1, hcX]
            have hne : ((acc.filter (fun d => d.prop == X)).isEmpty) = false := by
              have h2 := any_eq_not_isEmpty_filter (fun d => d.prop == c.prop) acc
              rw [hacc, hcX] at h2
              cases h3 : (acc.filter (fun d => d.prop == X)).isEmpty with
              | false => rfl
              | true => rw [h3] at h2; simp at h2
            rw [ih (cstep acc c), hfilter, if_pos hc]
            conv_rhs => rw [updX]
            rw [hne]
            simp
        | false =>
            have happ : cstep acc c = acc ++ [c] := by simp [cstep, hacc]
            have hnil : acc.filter (fun d => d.prop == X) = [] := by
              refine filter_eq_nil_of_any_false X acc ?_
              rw [← hcX]
              exact hacc
            have hfilter : (cstep acc c).filter (fun d => d.prop == X) = [c] := by
              rw [happ, List.filter_append, hnil]
              simp [hc]
            rw [ih (cstep acc c), hfilter, if_pos hc, hnil]
            conv_rhs => rw [updX]
            simp
      · have hcb : (c.prop == X) = false := by
          cases h : (c.prop == X) with
          | true => exact absurd h hc
          | false => rfl
        have hcX : c.prop ≠ X := by
          intro h; rw [h] at hcb; simp at hcb
        have hfilter : (cstep acc c).filter (fun d => d.prop == X) =
            acc.filter (fun d => d.prop == X) := by
          cases hacc : acc.any (fun d => d.prop == c.prop) with
          | true =>
              have hmap : cstep acc c = acc.map
                  (fun d => if d.prop == c.prop then { d with value := c.value } else d) := by
                simp [cstep, hacc]
              rw [hmap, filter_map_propX X _ (cstep_prop_preserving c)]
              refine Eq.trans (List.map_congr_left ?_) (List.map_id _)
              intro e he
              have h2 : e.prop = X := eq_of_beq (List.mem_filter.mp he).2
              have h3 : (e.prop == c.prop) = false := by
                rw [h2]
                exact beq_eq_false_iff_ne.mpr (fun h => hcX h.symm)
              simp [h3]
          | false =>
              have happ : cstep acc c = acc ++ [c] := by simp [cstep, hacc]
              rw [happ, List.filter_append]
              simp [hcb]
        rw [ih (cstep acc c), hfilter, hcb]
        simp

lemma beq_comm_str (x y : String) : (x == y) = (y == x) := by
  by_cases hxy : x = y
  · subst hxy; rfl
  · have h1 : (x == y) = false := beq_eq_false_iff_ne.mpr hxy
    have h2 : (y == x) = false := beq_eq_false_iff_ne.mpr (fun h => hxy h.symm)
    rw [h1, h2]

lemma contains_map_prop {V : Type} (acc : List (Change V)) (x : String) :
    (acc.map (fun c => c.prop)).contains x = acc.any (fun d => d.prop == x) := by
  induction acc with
  | nil => rfl
  | cons a l ih =>
      simp only [List.map_cons, List.contains_cons, List.any_cons, ih]
      rw [beq_comm_str x a.prop]

lemma contains_append_singleton (s : List String) (p a : String) :
    (s ++ [p]).contains a = (p :: s).contains a := by
  induction s with
  | nil => rfl
  | cons q s ih =>
      simp only [List.cons_append, List.contains_cons, ih]
      cases h1 : a == q <;> cases h2 : a == p <;> simp

lemma newFirsts_congr (l : List String) :
    ∀ seen1 seen2 : List String, (∀ a, seen1.contains a = seen2.contains a) →
      newFirsts seen1 l = newFirsts seen2 l := by
  induction l with
  | nil => intro _ _ _; rfl
  | cons p ps ih =>
      intro seen1 seen2 h
      simp only [newFirsts, h p]
      by_cases hp : seen2.contains p = true
      · rw [if_pos hp, if_pos hp]
        exact ih seen1 seen2 h
      · rw [if_neg hp, if_neg hp]
        have hcong : ∀ a, (p :: seen1).contains a = (p :: seen2).contains a := by
          intro a; simp only [List.contains_cons, h a]
        rw [ih (p :: seen1) (p :: seen2) hcong]

lemma foldl_cstep_props {V : Type} :
    ∀ (l acc : List (Change V)),
      ((l.foldl cstep acc).map (fun c => c.prop)) =
        acc.map (fun c => c.prop) ++
          newFirsts (acc.map (fun c => c.prop)) (l.map (fun c => c.prop)) := by
  intro l
  induction l with
  | nil => intro acc; simp [newFirsts]
  | cons c l ih =>
      intro acc
      simp only [List.foldl_cons, List.map_cons, newFirsts, contains_map_prop]
      cases hacc : acc.any (fun d => d.prop == c.prop) with
      | true =>
          have hmap : cstep acc c = acc.map
              (fun d => if d.prop == c.prop then { d with value := c.value } else d) := by
            simp [cstep, hacc]
          have hprops : (cstep acc c).map (fun d => d.prop) = acc.map (fun d => d.prop) := by
            rw [hmap, List.map_map]
            exact List.map_congr_left (fun d _ => cstep_prop_preserving c d)
          rw [ih (cstep acc c), hprops]
          simp
      | false =>
          have happ : cstep acc c = acc ++ [c] := by simp [cstep, hacc]
          have hprops : (cstep acc c).map (fun d => d.prop) =
              acc.map (fun d => d.prop) ++ [c.prop] := by
            rw [happ]; simp
          rw [ih (cstep acc c), hprops]
          simp only [List.append_assoc, List.singleton_append]
          have hswap : newFirsts (acc.map (fun d => d.prop) ++ [c.prop])
                (l.map (fun d => d.prop)) =
              newFirsts (c.prop :: acc.map (fun d => d.prop)) (l.map (fun d => d.prop)) :=
            newFirsts_congr _ _ _ (fun a => contains_append_singleton _ _ _)
          rw [hswap]
          simp

/-- The notifications a batch emits on a quiescent store: the coalesced
form of the changes the body records. -/
lemma batchRun_output {V : Type} [DecidableEq V] (s : Store V) (body : List (String × V))
    (hq2 : s.pendingChanges = []) :
    (batchRun s body).2 = coalesce (runBody s.target body) := by
  have hexec := execBody_spec body { s with batching := true } rfl
  simp only [batchRun]
  have : (execBody { s with batching := true } body).pendingChanges =
      runBody s.target body := by
    rw [hexec.1]
    simp [hq2]
  rw [this]

/-- Claim C2, counterexample to the ordering conjunct: in the batch
`[("y", 0), ("x", 1), ("x", 2), ("y", 3)]` on a store where every field
is 0, the field `x` is assigned twice (1 then 2, both distinct from the
prior value 0), so the batch is in the claim's scope; the fields in
first-assignment order are `y, x`, but the notifications fire in the
order `x, y`, because the first write to `y` carries its current value
and is suppressed by the set trap before it can reserve a slot. -/
theorem c2_order_counterexample :
    (batchRun (V := Nat) ⟨fun _ => 0, false, []⟩
        [("y", 0), ("x", 1), ("x", 2), ("y", 3)]).2 =
      [⟨"x", 2, 0⟩, ⟨"y", 3, 0⟩] ∧
    firstOccurrences (([("y", 0), ("x", 1), ("x", 2), ("y", 3)] :
        List (String × Nat)).map (fun a => a.1)) = ["y", "x"] ∧
    (batchRun (V := Nat) ⟨fun _ => 0, false, []⟩
        [("y", 0), ("x", 1), ("x", 2), ("y", 3)]).2.map (fun c => c.prop) ≠
      firstOccurrences (([("y", 0), ("x", 1), ("x", 2), ("y", 3)] :
        List (String × Nat)).map (fun a => a.1)) := by
  refine ⟨by decide, by decide, by decide⟩

/-- Claim C2 (amended): on a quiescent store, a batch whose assignments
to field `X` are exactly `value1` then `value2`, with `value1` distinct
from the prior value, notifies exactly once for `X`, with `newValue`
equal to `value2` and `oldValue` equal to the value `X` held before the
batch began; and notifications for distinct fields fire in the order of
each field's first value-changing assignment inside the batch (an
assignment of a field's current value does not reserve its position). -/
theorem c2_batch_coalescing {V : Type} [DecidableEq V] (s : Store V)
    (body : List (String × V)) (X : String) (v1 v2 : V)
    (hq2 : s.pendingChanges = [])
    (hX : (body.filter (fun a => a.1 == X)).map (fun a => a.2) = [v1, v2])
    (h1 : v1 ≠ s.target X) :
    ((batchRun s body).2.filter (fun c => c.prop == X)) = [⟨X, v2, s.target X⟩] ∧
    (batchRun s body).2.map (fun c => c.prop) =
      firstOccurrences ((runBody s.target body).map (fun c => c.prop)) := by
  rw [batchRun_output s body hq2]
  constructor
  · rw [coalesce, foldl_cstep_filterX X _ [], runBody_filterX X body s.target, hX]
    have hne : ¬ s.target X = v1 := fun h => h1 h.symm
    rw [recordedX, if_neg hne]
    by_cases h12 : v1 = v2
    · rw [recordedX, if_pos h12, recordedX]
      simp [updX, h12]
    · rw [recordedX, if_neg h12, recordedX]
      simp [updX]
  · rw [coalesce, foldl_cstep_props _ []]
    rfl

/-- Claim C9: on a quiescent store, a batch whose assignments to field
`X` are exactly some value `v` distinct from the prior value and then
the prior value itself still notifies exactly once for `X`, with
`newValue` equal to `oldValue` (both the pre-batch value): the
redundant-update suppression applies per individual assignment, not to
the batch's net effect. -/
theorem c9_batch_revert_notifies {V : Type} [DecidableEq V] (s : Store V)
    (body : List (String × V)) (X : String) (v : V)
    (hq2 : s.pendingChanges = [])
    (hX : (body.filter (fun a => a.1 == X)).map (fun a => a.2) = [v, s.target X])
    (h1 : v ≠ s.target X) :
    ((batchRun s body).2.filter (fun c => c.prop == X)) =
      [⟨X, s.target X, s.target X⟩] := by
  rw [batchRun_output s body hq2]
  rw [coalesce, foldl_cstep_filterX X _ [], runBody_filterX X body s.target, hX]
  have hne : ¬ s.target X = v := fun h => h1 h.symm
  rw [recordedX, if_neg hne, recordedX, if_neg h1, recordedX]
  simp [updX]

theorem c2_batch_coalescing_witness :
    ((batchRun (V := Nat) ⟨fun _ => 0, false, []⟩ [("x", 1), ("x", 2)]).2.filter
        (fun c => c.prop == "x")) = [⟨"x", 2, 0⟩] ∧
    (batchRun (V := Nat) ⟨fun _ => 0, false, []⟩ [("x", 1), ("x", 2)]).2.map
        (fun c => c.prop) =
      firstOccurrences ((runBody (V := Nat) (fun _ => 0) [("x", 1), ("x", 2)]).map
        (fun c => c.prop)) :=
  c2_batch_coalescing ⟨fun _ => 0, false, []⟩ [("x", 1), ("x", 2)] "x" 1 2 rfl
    (by decide) (by decide)

theorem c9_batch_revert_notifies_witness :
    ((batchRun (V := Nat) ⟨fun _ => 0, false, []⟩ [("x", 5), ("x", 0)]).2.filter
        (fun c => c.prop == "x")) = [⟨"x", 0, 0⟩] :=
  c9_batch_revert_notifies ⟨fun _ => 0, false, []⟩ [("x", 5), ("x", 0)] "x" 5 rfl
    (by decide) (by decide)

/-!
## Peer module (room membership, admission, whisper routing)

Shallow embedding of the Trystero-backed peer module.  The `AppState`
record joins the store fields of src/state.js that the module reads or
writes with the module-level mutable variables (`peerTrackState`,
`activeWhisperTarget`, `pendingPeerInfo`, `admitTimeout`, the nullable
`room` handle, and the media engine's stream/track availability,
abstracted as `hasMedia` since the stream, its real track, and the
synthetic silent track are all available exactly when `initAudio`
succeeded and `destroyAudio` has not run).  JavaScript `Map`s are
association lists in insertion order; timers are modelled as armed
flags together with explicit fire events; `selfId` is the constant
identifier the transport assigns.  Network sends and stream-routing
calls are collected as a list of `Cmd` outputs.
-/

inductive TrackState
  | real
  | silent
deriving Repr, DecidableEq

structure Peer where
  peerId : String
  username : String
  isTalking : Bool
  isIdle : Bool
  isWhispering : Bool
deriving Repr, DecidableEq

structure KnockRequest where
  peerId : String
  username : String
deriving Repr, DecidableEq

inductive KnockMsg
  | required
  | mode (enabled : Bool) (creatorId : String)
  | admitted
  | reply (targetPeerId : String) (approved : Bool)
deriving Repr, DecidableEq

inductive Cmd
  | sendKnock (msg : KnockMsg) (dest : Option String)
  | sendUsername (username : String) (dest : Option String)
  | addStream (dest : String)
  | replaceTrack (fromTrack toTrack : TrackState) (dest : String)
  | sendWhisper (isTalking : Bool) (dest : String)
deriving Repr, DecidableEq

structure AppState where
  view : String
  roomCode : String
  username : String
  myPeerId : String
  peers : List Peer
  isTalking : Bool
  whisperTarget : Option String
  noMic : Bool
  knockEnabled : Bool
  admitted : Bool
  knockWaiting : Bool
  pendingKnocks : List KnockRequest
  creatorId : Option String
  selfId : String
  peerTrackState : List (String × TrackState)
  activeWhisperTarget : Option String
  pendingPeerInfo : List (String × String)
  admitTimeout : Bool
  rejectTimer : Bool
  roomJoined : Bool
  hasMedia : Bool
  realTrackEnabled : Bool
deriving Repr, DecidableEq

/-- The store's initial record (src/state.js lines 7-24) combined with
the module-level variables' initial values. -/
def initialState (selfId username : String) : AppState where
  view := "loading"
  roomCode := ""
  username := username
  myPeerId := ""
  peers := []
  isTalking := false
  whisperTarget := none
  noMic := false
  knockEnabled := false
  admitted := true
  knockWaiting := false
  pendingKnocks := []
  creatorId := none
  selfId := selfId
  peerTrackState := []
  activeWhisperTarget := none
  pendingPeerInfo := []
  admitTimeout := false
  rejectTimer := false
  roomJoined := false
  hasMedia := false
  realTrackEnabled := false

def mapGet {α : Type} (m : List (String × α)) (k : String) : Option α :=
  (m.find? (fun e => e.1 == k)).map (fun e => e.2)

def mapSet {α : Type} (m : List (String × α)) (k : String) (v : α) : List (String × α) :=
  if m.any (fun e => e.1 == k) then m.map (fun e => if e.1 == k then (k, v) else e)
  else m ++ [(k, v)]

def mapDelete {α : Type} (m : List (String × α)) (k : String) : List (String × α) :=
  m.filter (fun e => !(e.1 == k))

/-- Model of `makePeer` (peer module): the username defaults to the raw peer id. -/
def makePeer (peerId : String) (username : Option String) : Peer :=
  ⟨peerId, username.getD peerId, false, false, false⟩

/-- Model of `updatePeer`: replace the matching roster entry field-by-field. -/
def updatePeer (s : AppState) (peerId : String) (f : Peer → Peer) : AppState :=
  { s with peers := s.peers.map (fun p => if p.peerId == peerId then f p else p) }

/-- Model of `removeKnock`: drop the pending knock with the given id. -/
def removeKnock (s : AppState) (peerId : String) : AppState :=
  { s with pendingKnocks := s.pendingKnocks.filter (fun k => !(k.peerId == peerId)) }

/-- Model of `admitSelf` (peer module lines 245-267): a no-op when already
admitted; otherwise clear the auto-admission timer, become admitted,
materialize the roster from self plus the cached pending peer info,
drain the cache, and send the stream to every remote roster member. -/
def admitSelf (s : AppState) : AppState × List Cmd :=
  if s.admitted then (s, [])
  else
    let s1 := { s with admitTimeout := false }
    let peers := makePeer s1.selfId (some s1.username) ::
      s1.pendingPeerInfo.map (fun e => makePeer e.1 (some e.2))
    let s2 := { s1 with admitted := true, view := "room", peers := peers }
    let s3 := { s2 with pendingPeerInfo := [] }
    let cmds := if s3.hasMedia && s3.roomJoined then
        (s3.peers.filter (fun p => !(p.peerId == s3.selfId))).map
          (fun p => Cmd.addStream p.peerId)
      else []
    (s3, cmds)

/-- Model of `moveKnockToPeers` (peer module lines 269-273): append the peer to
the roster unless already present, using the pending knock's username
when one exists. -/
def moveKnockToPeers (s : AppState) (peerId : String) : AppState :=
  if s.peers.any (fun p => p.peerId == peerId) then s
  else
    let knock := s.pendingKnocks.find? (fun k => k.peerId == peerId)
    { s with peers := s.peers ++ [makePeer peerId (knock.map (fun k => k.username))] }

/-- The `getKnock` receive handler (peer module lines 150-177).  A
`reply` denying self arms the 2-second leave-and-recreate timeout,
modelled by the `rejectTimer` flag. -/
def handleKnock (s : AppState) (msg : KnockMsg) : AppState × List Cmd :=
  match msg with
  | .required => (s, [])
  | .admitted => admitSelf s
  | .mode enabled creatorId =>
      let s1 := { s with knockEnabled := enabled, creatorId := some creatorId }
      if !enabled && s1.pendingKnocks.length > 0 then
        let s2 := s1.pendingKnocks.foldl (fun acc k => moveKnockToPeers acc k.peerId) s1
        ({ s2 with pendingKnocks := [] }, [])
      else (s1, [])
  | .reply target approved =>
      if target == s.selfId then
        if approved then admitSelf s
        else ({ s with view := "rejected", rejectTimer := true }, [])
      else if s.admitted then
        let s1 := if approved then moveKnockToPeers s target else s
        (removeKnock s1 target, [])
      else (s, [])

/-- The `getUsername` receive handler (peer module lines 121-131). -/
def handleUsername (s : AppState) (username peerId : String) : AppState :=
  let s1 := updatePeer s peerId (fun p => { p with username := username })
  let s2 := if s1.pendingKnocks.any (fun k => k.peerId == peerId) then
      { s1 with pendingKnocks := (s1.pendingKnocks.map
          (fun k => if k.peerId == peerId then { k with username := username } else k)) }
    else s1
  if (mapGet s2.pendingPeerInfo peerId).isSome then
    { s2 with pendingPeerInfo := mapSet s2.pendingPeerInfo peerId username }
  else s2

/-- Model of `room.onPeerJoin` (peer module lines 180-219). -/
def onPeerJoin (s : AppState) (peerId : String) : AppState × List Cmd :=
  if s.admitted then
    if s.knockEnabled then
      let s1 := if s.pendingKnocks.any (fun k => k.peerId == peerId) then s
        else { s with pendingKnocks := s.pendingKnocks ++ [⟨peerId, peerId⟩] }
      (s1, [Cmd.sendKnock .required (some peerId),
            Cmd.sendKnock (.mode true (s1.creatorId.getD s1.selfId)) (some peerId)] ++
        (if s1.hasMedia then [Cmd.addStream peerId] else []) ++
        [Cmd.sendUsername s1.username (some peerId)])
    else
      let s1 := if s.peers.any (fun p => p.peerId == peerId) then s
        else { s with peers := s.peers ++ [makePeer peerId none] }
      let base := [Cmd.sendKnock .admitted (some peerId),
                   Cmd.sendUsername s1.username (some peerId)]
      if s1.hasMedia then
        match s1.activeWhisperTarget with
        | some t =>
            if !(peerId == t) then
              ({ s1 with peerTrackState := mapSet s1.peerTrackState peerId .silent },
               base ++ [Cmd.addStream peerId, Cmd.replaceTrack .real .silent peerId])
            else (s1, base ++ [Cmd.addStream peerId])
        | none => (s1, base ++ [Cmd.addStream peerId])
      else (s1, base)
  else
    ({ s with pendingPeerInfo := mapSet s.pendingPeerInfo peerId peerId },
     [Cmd.sendUsername s.username (some peerId)])

/-- Model of `room.onPeerLeave` (peer module lines 221-234). -/
def onPeerLeave (s : AppState) (peerId : String) : AppState :=
  let s1 := { s with peers := s.peers.filter (fun p => !(p.peerId == peerId)) }
  let s2 := removeKnock s1 peerId
  let s3 := { s2 with pendingPeerInfo := mapDelete s2.pendingPeerInfo peerId,
                      peerTrackState := mapDelete s2.peerTrackState peerId }
  if s3.creatorId == some peerId then
    { s3 with knockEnabled := false, creatorId := none }
  else s3

/-- The effective routing state of a peer: the `peerTrackState` entry,
defaulting to `real` when absent (`peerTrackState.get(p) || 'real'`). -/
def effTrack (s : AppState) (peerId : String) : TrackState :=
  (mapGet s.peerTrackState peerId).getD .real

/-- The ids of remote roster peers whose routing state is `Real`. -/
def realRemotePeers (s : AppState) : List String :=
  (s.peers.filter (fun p => !(p.peerId == s.selfId) && effTrack s p.peerId == .real)).map
    (fun p => p.peerId)

/-- Model of `startWhisper` (peer module lines 277-303): a no-op without media or
a room; otherwise record the whisper target, unmute the real track, and
walk the roster switching the target to `Real` and everyone else to
`Silent`, touching only peers not already in the wanted state. -/
def startWhisper (s : AppState) (targetPeerId : String) : AppState × List Cmd :=
  if s.hasMedia && s.roomJoined then
    let s1 := { s with activeWhisperTarget := some targetPeerId, realTrackEnabled := true }
    let res := s1.peers.foldl (fun (acc : List (String × TrackState) × List Cmd) p =>
        if p.peerId == s1.selfId then acc
        else
          let current := (mapGet acc.1 p.peerId).getD .real
          if p.peerId == targetPeerId then
            if current == .silent then
              (mapSet acc.1 p.peerId .real,
               acc.2 ++ [Cmd.replaceTrack .silent .real p.peerId])
            else acc
          else
            if current == .real then
              (mapSet acc.1 p.peerId .silent,
               acc.2 ++ [Cmd.replaceTrack .real .silent p.peerId])
            else acc)
      (s1.peerTrackState, [])
    ({ s1 with peerTrackState := res.1 },
     res.2 ++ [Cmd.sendWhisper true targetPeerId])
  else (s, [])

/-- Model of `stopWhisper` (peer module lines 305-324): a no-op without media or
a room; otherwise clear the whisper target, mute the real track, and
switch every `Silent` peer back to `Real`. -/
def stopWhisper (s : AppState) (targetPeerId : String) : AppState × List Cmd :=
  if s.hasMedia && s.roomJoined then
    let s1 := { s with activeWhisperTarget := none, realTrackEnabled := false }
    let res := s1.peers.foldl (fun (acc : List (String × TrackState) × List Cmd) p =>
        if p.peerId == s1.selfId then acc
        else
          let current := (mapGet acc.1 p.peerId).getD .real
          if current == .silent then
            (mapSet acc.1 p.peerId .real,
             acc.2 ++ [Cmd.replaceTrack .silent .real p.peerId])
          else acc)
      (s1.peerTrackState, [])
    ({ s1 with peerTrackState := res.1 },
     res.2 ++ [Cmd.sendWhisper false targetPeerId])
  else (s, [])

/-- The `whisperStart` pointer handler of src/ui.js lines 539-547: bail
while talking or whispering, record `whisperTarget` in the store, then
call `startWhisper`. -/
def whisperStartUi (s : AppState) (peerId : String) : AppState × List Cmd :=
  if s.isTalking || s.whisperTarget.isSome then (s, [])
  else
    let s1 := { s with whisperTarget := some peerId }
    startWhisper s1 peerId

/-- The `whisperStop` pointer handler of src/ui.js lines 549-557: bail
when no whisper is held, clear `whisperTarget`, then call
`stopWhisper` on the previous target. -/
def whisperStopUi (s : AppState) : AppState × List Cmd :=
  match s.whisperTarget with
  | none => (s, [])
  | some target => stopWhisper { s with whisperTarget := none } target

/-- Model of `toggleKnockMode` (peer module lines 336-350): creator-only; when
turning knocking off, approve and absorb every pending knock, then
broadcast the new mode. -/
def toggleKnockMode (s : AppState) : AppState × List Cmd :=
  if !(s.creatorId == some s.myPeerId) then (s, [])
  else
    let enabled := !s.knockEnabled
    let s1 := { s with knockEnabled := enabled }
    let step := if !enabled && s1.pendingKnocks.length > 0 then
        let r := s1.pendingKnocks.foldl
          (fun (acc : AppState × List Cmd) k =>
            (moveKnockToPeers acc.1 k.peerId,
             acc.2 ++ (if s1.roomJoined then [Cmd.sendKnock (.reply k.peerId true) none]
               else [])))
          (s1, [])
        ({ r.1 with pendingKnocks := [] }, r.2)
      else (s1, [])
    (step.1, step.2 ++
      (if s.roomJoined then [Cmd.sendKnock (.mode enabled s.selfId) none] else []))

/-- Model of `resolveKnock` (peer module lines 352-356): send the reply through
the `sendKnock` wrapper (a no-op without an active room, lines 86-88);
materialize the peer when approved; drop the pending knock.  Neither
state effect is guarded by existence of a matching pending knock. -/
def resolveKnock (s : AppState) (peerId : String) (approved : Bool) : AppState × List Cmd :=
  let s1 := if approved then moveKnockToPeers s peerId else s
  (removeKnock s1 peerId,
   if s.roomJoined then [Cmd.sendKnock (.reply peerId approved) none] else [])

/-- The room-code alphabet (peer module line 42): uppercase without the
confusable characters 0, 1, I, O. -/
def codeChars : List Char := "ABCDEFGHJKLMNPQRSTUVWXYZ23456789".toList

/-- Model of `genCode` (peer module lines 41-46): four characters drawn from the
alphabet by a random source, modelled as a stream of sampled indices
reduced modulo the alphabet size. -/
def genCode (rand : Nat → Nat) : String :=
  String.mk ((List.range 4).map (fun i => codeChars.getD (rand i % codeChars.length) 'A'))

/-- Model of `setupRoom` (peer module lines 92-241, state effects): join the
transport room, recreate the send actions, and initialise self state;
knockers start in the `knocking` view with an empty roster. -/
def setupRoom (s : AppState) (code : String) : AppState :=
  let s1 := { s with roomJoined := true }
  if s1.admitted then
    { s1 with myPeerId := s1.selfId, roomCode := code, view := "room",
              peers := [makePeer s1.selfId (some s1.username)] }
  else
    { s1 with myPeerId := s1.selfId, roomCode := code, view := "knocking", peers := [] }

/-- Model of `createRoom` (peer module lines 358-368): generate a code, become
admitted, initialise audio (falling back to `noMic`), set up the room,
and become its creator. -/
def createRoom (s : AppState) (rand : Nat → Nat) (micOk : Bool) : AppState :=
  let code := genCode rand
  let s1 := { s with admitted := true, creatorId := none }
  let s2 := if micOk then { s1 with hasMedia := true }
    else { s1 with hasMedia := false, noMic := true }
  let s3 := setupRoom s2 code
  { s3 with creatorId := some s3.selfId }

/-- Model of `toUpperCase()` of the join code: uppercase every character. -/
def jsToUpper (s : String) : String := String.mk (s.data.map Char.toUpper)

/-- Model of `trim()` of the join code: strip leading and trailing whitespace. -/
def jsTrim (s : String) : String :=
  String.mk (((s.data.dropWhile Char.isWhitespace).reverse.dropWhile
    Char.isWhitespace).reverse)

/-- Model of `joinRoom` (peer module lines 370-386): normalise the code
(`code.toUpperCase().trim()`), become unadmitted, initialise audio with
the same fallback, set up the room, and arm the 3-second auto-admission
timer. -/
def joinRoom (s : AppState) (code : String) (micOk : Bool) : AppState :=
  let code := jsTrim (jsToUpper code)
  if code.isEmpty then s
  else
    let s1 := { s with admitted := false }
    let s2 := if micOk then { s1 with hasMedia := true }
      else { s1 with hasMedia := false, noMic := true }
    let s3 := setupRoom s2 code
    { s3 with admitTimeout := true }

/-- The 3-second auto-admission timer callback (peer module lines
380-385); firing consumes the armed timer, and the callback promotes
self to creator only when still unadmitted. -/
def admitTimerFire (s : AppState) : AppState × List Cmd :=
  if s.admitTimeout then
    let s1 := { s with admitTimeout := false }
    if s1.admitted then (s1, [])
    else admitSelf { s1 with creatorId := some s1.selfId }
  else (s, [])

/-- Model of `leaveRoom` (peer module lines 395-416) with `cleanup` (lines
388-393): tear down routing state, audio, the timer, the cached peer
info, the room handle, and batch-reset the listed store fields. -/
def leaveRoom (s : AppState) : AppState :=
  let s1 := { s with peerTrackState := [], activeWhisperTarget := none }
  let s2 := { s1 with hasMedia := false, realTrackEnabled := false }
  let s3 := { s2 with admitTimeout := false, pendingPeerInfo := [], roomJoined := false }
  { s3 with peers := [], isTalking := false, knockEnabled := false, admitted := true,
            pendingKnocks := [], creatorId := none }

/-- The rejection cooldown callback (peer module line 170): after the
2-second timeout, leave the room and create a fresh one. -/
def rejectTimerFire (s : AppState) (rand : Nat → Nat) (micOk : Bool) : AppState :=
  if s.rejectTimer then
    createRoom (leaveRoom { s with rejectTimer := false }) rand micOk
  else s

/-- The events the transport, the timers, and the presentation layer
can deliver to the module. -/
inductive Ev
  | evCreateRoom (rand : Nat → Nat) (micOk : Bool)
  | evJoinRoom (code : String) (micOk : Bool)
  | evLeaveRoom
  | evPeerJoin (peerId : String)
  | evPeerLeave (peerId : String)
  | evKnockMsg (msg : KnockMsg)
  | evUsernameMsg (username fromId : String)
  | evTalkingMsg (isTalking : Bool) (fromId : String)
  | evWhisperMsg (isTalking : Bool) (fromId : String)
  | evRenameMsg (username fromId : String)
  | evIdleMsg (idle : Bool) (fromId : String)
  | evVisibility (idle : Bool)
  | evWhisperStart (peerId : String)
  | evWhisperStop
  | evToggleKnockMode
  | evResolveKnock (peerId : String) (approved : Bool)
  | evAdmitTimerFire
  | evRejectTimerFire (rand : Nat → Nat) (micOk : Bool)

/-- One step of the event-driven state machine (state effect only). -/
def stepEv (s : AppState) (e : Ev) : AppState :=
  match e with
  | .evCreateRoom rand micOk => createRoom s rand micOk
  | .evJoinRoom code micOk => joinRoom s code micOk
  | .evLeaveRoom => leaveRoom s
  | .evPeerJoin peerId => (onPeerJoin s peerId).1
  | .evPeerLeave peerId => onPeerLeave s peerId
  | .evKnockMsg msg => (handleKnock s msg).1
  | .evUsernameMsg username fromId => handleUsername s username fromId
  | .evTalkingMsg isTalking fromId =>
      updatePeer s fromId (fun p => { p with isTalking := isTalking })
  | .evWhisperMsg isTalking fromId =>
      updatePeer s fromId (fun p => { p with isWhispering := isTalking })
  | .evRenameMsg username fromId =>
      updatePeer s fromId (fun p => { p with username := username })
  | .evIdleMsg idle fromId => updatePeer s fromId (fun p => { p with isIdle := idle })
  | .evVisibility idle => updatePeer s s.selfId (fun p => { p with isIdle := idle })
  | .evWhisperStart peerId => (whisperStartUi s peerId).1
  | .evWhisperStop => (whisperStopUi s).1
  | .evToggleKnockMode => (toggleKnockMode s).1
  | .evResolveKnock peerId approved => (resolveKnock s peerId approved).1
  | .evAdmitTimerFire => (admitTimerFire s).1
  | .evRejectTimerFire rand micOk => rejectTimerFire s rand micOk

/-- Run a sequence of events. -/
def runEvents (s : AppState) (evs : List Ev) : AppState := evs.foldl stepEv s

/-- The transport only reports remote peers: a peer-join event never
carries the local client's own id. -/
def ValidEv (selfId : String) : Ev → Prop
  | .evPeerJoin peerId => peerId ≠ selfId
  | _ => True

/-! ## Helper lemmas about the peer module -/

lemma ite_cond_true {α : Sort _} (c : Bool) (h : c = true) (x y : α) :
    (if c = true then x else y) = x := by rw [h]; simp

lemma ite_cond_false {α : Sort _} (c : Bool) (h : c = false) (x y : α) :
    (if c = true then x else y) = y := by rw [h]; simp

lemma moveKnockToPeers_of_mem (s : AppState) (pid : String)
    (h : (s.peers.any (fun p => p.peerId == pid)) = true) :
    moveKnockToPeers s pid = s := by
  unfold moveKnockToPeers
  rw [ite_cond_true _ h]

lemma removeKnock_idem (s : AppState) (pid : String) :
    removeKnock (removeKnock s pid) pid = removeKnock s pid := by
  have hl : ((s.pendingKnocks.filter (fun k => !(k.peerId == pid))).filter
      (fun k => !(k.peerId == pid))) =
      s.pendingKnocks.filter (fun k => !(k.peerId == pid)) :=
    List.filter_eq_self.mpr (fun a ha => (List.mem_filter.mp ha).2)
  show ({ removeKnock s pid with pendingKnocks := ((s.pendingKnocks.filter
    (fun k => !(k.peerId == pid))).filter (fun k => !(k.peerId == pid))) } : AppState) =
    removeKnock s pid
  rw [hl]
  rfl

lemma moveKnockToPeers_mem_self (s : AppState) (peerId : String) :
    ((moveKnockToPeers s peerId).peers.any (fun p => p.peerId == peerId)) = true := by
  unfold moveKnockToPeers
  by_cases h : (s.peers.any (fun p => p.peerId == peerId)) = true
  · simp only [if_pos h]; exact h
  · simp only [if_neg h]
    simp [makePeer]

lemma moveKnockToPeers_mem_mono (s : AppState) (peerId pid : String)
    (h : (s.peers.any (fun p => p.peerId == pid)) = true) :
    ((moveKnockToPeers s peerId).peers.any (fun p => p.peerId == pid)) = true := by
  unfold moveKnockToPeers
  by_cases hj : (s.peers.any (fun p => p.peerId == peerId)) = true
  · simp only [if_pos hj]; exact h
  · simp only [if_neg hj]
    simp [List.any_append, h]

lemma moveKnockToPeers_pendingKnocks (s : AppState) (peerId : String) :
    (moveKnockToPeers s peerId).pendingKnocks = s.pendingKnocks := by
  unfold moveKnockToPeers
  by_cases hj : (s.peers.any (fun p => p.peerId == peerId)) = true <;> simp [hj]

lemma moveKnockToPeers_frame (s : AppState) (peerId : String) :
    (moveKnockToPeers s peerId).admitted = s.admitted ∧
    (moveKnockToPeers s peerId).selfId = s.selfId ∧
    (moveKnockToPeers s peerId).knockEnabled = s.knockEnabled ∧
    (moveKnockToPeers s peerId).pendingPeerInfo = s.pendingPeerInfo := by
  unfold moveKnockToPeers
  by_cases hj : (s.peers.any (fun p => p.peerId == peerId)) = true <;> simp [hj]

lemma foldl_moveKnock_mono (ks : List KnockRequest) :
    ∀ (s : AppState) (pid : String),
      (s.peers.any (fun p => p.peerId == pid)) = true →
      ((ks.foldl (fun acc k => moveKnockToPeers acc k.peerId) s).peers.any
        (fun p => p.peerId == pid)) = true := by
  induction ks with
  | nil => intro s pid h; exact h
  | cons k ks ih =>
      intro s pid h
      exact ih _ pid (moveKnockToPeers_mem_mono s k.peerId pid h)

lemma foldl_moveKnock_adds (ks : List KnockRequest) :
    ∀ (s : AppState), ∀ k ∈ ks,
      ((ks.foldl (fun acc k => moveKnockToPeers acc k.peerId) s).peers.any
        (fun p => p.peerId == k.peerId)) = true := by
  induction ks with
  | nil => intro s k hk; cases hk
  | cons k0 ks ih =>
      intro s k hk
      rcases List.mem_cons.mp hk with h | h
      · rw [h]
        exact foldl_moveKnock_mono ks _ _ (moveKnockToPeers_mem_self s _)
      · exact ih _ k h

lemma pairFoldl_moveKnock_fst (ks : List KnockRequest) (emit : KnockRequest → List Cmd) :
    ∀ (s : AppState) (cmds : List Cmd),
      ((ks.foldl (fun (acc : AppState × List Cmd) k =>
          (moveKnockToPeers acc.1 k.peerId, acc.2 ++ emit k)) (s, cmds)).1) =
        ks.foldl (fun acc k => moveKnockToPeers acc k.peerId) s := by
  induction ks with
  | nil => intro s cmds; rfl
  | cons k ks ih => intro s cmds; exact ih _ _

lemma foldl_moveKnock_frame (ks : List KnockRequest) :
    ∀ (s : AppState),
      (ks.foldl (fun acc k => moveKnockToPeers acc k.peerId) s).admitted = s.admitted ∧
      (ks.foldl (fun acc k => moveKnockToPeers acc k.peerId) s).selfId = s.selfId ∧
      (ks.foldl (fun acc k => moveKnockToPeers acc k.peerId) s).knockEnabled =
        s.knockEnabled ∧
      (ks.foldl (fun acc k => moveKnockToPeers acc k.peerId) s).pendingPeerInfo =
        s.pendingPeerInfo := by
  induction ks with
  | nil => intro s; exact ⟨rfl, rfl, rfl, rfl⟩
  | cons k ks ih =>
      intro s
      have h1 := moveKnockToPeers_frame s k.peerId
      have h2 := ih (moveKnockToPeers s k.peerId)
      exact ⟨h2.1.trans h1.1, h2.2.1.trans h1.2.1, h2.2.2.1.trans h1.2.2.1,
        h2.2.2.2.trans h1.2.2.2⟩

/-! ## Claim theorems: admission and lifecycle -/

/-- Claim C3: admission is idempotent.  An `admitted` signal or an
approving `reply` addressed to self is a no-op when `admitted` already
holds, and delivering the same approving `reply` for a remote peer
twice to an admitted member yields the same state (hence the same
roster and pending-knock list) as delivering it once. -/
theorem c3_admission_idempotent (s : AppState) (j : String)
    (hadm : s.admitted = true) (hj : j ≠ s.selfId) :
    (admitSelf s).1 = s ∧
    (handleKnock s KnockMsg.admitted).1 = s ∧
    (handleKnock s (KnockMsg.reply s.selfId true)).1 = s ∧
    (handleKnock (handleKnock s (KnockMsg.reply j true)).1 (KnockMsg.reply j true)).1 =
      (handleKnock s (KnockMsg.reply j true)).1 := by
  have hself : (admitSelf s).1 = s := by
    unfold admitSelf
    rw [ite_cond_true _ hadm]
  have hbj : (j == s.selfId) = false := beq_eq_false_iff_ne.mpr hj
  have hbs : (s.selfId == s.selfId) = true := beq_self_eq_true _
  have hreply : ∀ s2 : AppState, (j == s2.selfId) = false → s2.admitted = true →
      (handleKnock s2 (KnockMsg.reply j true)).1 =
        removeKnock (moveKnockToPeers s2 j) j := by
    intro s2 hb ha
    show ((if (j == s2.selfId) = true then _ else
      if s2.admitted = true then (removeKnock (moveKnockToPeers s2 j) j, ([] : List Cmd))
      else (s2, [])) : AppState × List Cmd).1 = _
    rw [ite_cond_false _ hb, ite_cond_true _ ha]
  refine ⟨hself, hself, ?_, ?_⟩
  · show ((if (s.selfId == s.selfId) = true then admitSelf s else _) :
      AppState × List Cmd).1 = s
    rw [ite_cond_true _ hbs]
    exact hself
  · rw [hreply s hbj hadm]
    have hadm1 : (removeKnock (moveKnockToPeers s j) j).admitted = true := by
      show (moveKnockToPeers s j).admitted = true
      rw [(moveKnockToPeers_frame s j).1]; exact hadm
    have hbj1 : (j == (removeKnock (moveKnockToPeers s j) j).selfId) = false := by
      show (j == (moveKnockToPeers s j).selfId) = false
      rw [(moveKnockToPeers_frame s j).2.1]; exact hbj
    rw [hreply _ hbj1 hadm1]
    have hmem : ((removeKnock (moveKnockToPeers s j) j).peers.any
        (fun p => p.peerId == j)) = true := by
      show ((moveKnockToPeers s j).peers.any (fun p => p.peerId == j)) = true
      exact moveKnockToPeers_mem_self s j
    rw [moveKnockToPeers_of_mem _ _ hmem]
    have hrk : removeKnock (removeKnock (moveKnockToPeers s j) j) j =
        removeKnock (moveKnockToPeers s j) j := removeKnock_idem _ _
    rw [hrk]

theorem c3_admission_idempotent_witness :
    (admitSelf (initialState "A" "u")).1 = initialState "A" "u" ∧
    (handleKnock (initialState "A" "u") KnockMsg.admitted).1 = initialState "A" "u" ∧
    (handleKnock (initialState "A" "u")
      (KnockMsg.reply (initialState "A" "u").selfId true)).1 = initialState "A" "u" ∧
    (handleKnock (handleKnock (initialState "A" "u") (KnockMsg.reply "B" true)).1
        (KnockMsg.reply "B" true)).1 =
      (handleKnock (initialState "A" "u") (KnockMsg.reply "B" true)).1 :=
  c3_admission_idempotent (initialState "A" "u") "B" rfl (by decide)

/-- Claim C4: disabling knocking — by the creator through
`toggleKnockMode`, or on any client through a `mode` message with
`enabled = false` — moves every pending knocker into the roster and
empties the pending-knock list. -/
theorem c4_mode_off_auto_admission (s : AppState) (cid : String) :
    (s.creatorId = some s.myPeerId → s.knockEnabled = true →
     (toggleKnockMode s).1.pendingKnocks = [] ∧
     (toggleKnockMode s).1.knockEnabled = false ∧
     ∀ k ∈ s.pendingKnocks,
       ((toggleKnockMode s).1.peers.any (fun p => p.peerId == k.peerId)) = true) ∧
    ((handleKnock s (KnockMsg.mode false cid)).1.pendingKnocks = [] ∧
     (handleKnock s (KnockMsg.mode false cid)).1.knockEnabled = false ∧
     ∀ k ∈ s.pendingKnocks,
       ((handleKnock s (KnockMsg.mode false cid)).1.peers.any
         (fun p => p.peerId == k.peerId)) = true) := by
  constructor
  · intro hc he
    have hguard : (!(s.creatorId == some s.myPeerId)) = false := by
      rw [hc, beq_self_eq_true]
      rfl
    simp only [toggleKnockMode]
    rw [ite_cond_false _ hguard]
    rw [pairFoldl_moveKnock_fst]
    split
    · refine ⟨rfl, ?_, ?_⟩
      · show (s.pendingKnocks.foldl (fun acc k => moveKnockToPeers acc k.peerId)
            ({ s with knockEnabled := !s.knockEnabled })).knockEnabled = false
        rw [(foldl_moveKnock_frame s.pendingKnocks _).2.2.1]
        show (!s.knockEnabled) = false
        rw [he]
        rfl
      · intro k hk
        show ((s.pendingKnocks.foldl (fun acc k => moveKnockToPeers acc k.peerId)
            ({ s with knockEnabled := !s.knockEnabled })).peers.any
          (fun p => p.peerId == k.peerId)) = true
        exact foldl_moveKnock_adds s.pendingKnocks _ k hk
    · rename_i hcond
      have hnil : s.pendingKnocks = [] := by
        cases hks : s.pendingKnocks with
        | nil => rfl
        | cons k0 ks =>
            exfalso
            apply hcond
            show (!(!s.knockEnabled) && decide (s.pendingKnocks.length > 0)) = true
            rw [he, hks]
            simp
      refine ⟨hnil, ?_, ?_⟩
      · show (!s.knockEnabled) = false
        rw [he]
        rfl
      · intro k hk
        rw [hnil] at hk
        cases hk
  · simp only [handleKnock]
    split
    · refine ⟨rfl, ?_, ?_⟩
      · show (s.pendingKnocks.foldl (fun acc k => moveKnockToPeers acc k.peerId)
            ({ s with knockEnabled := false, creatorId := some cid })).knockEnabled = false
        rw [(foldl_moveKnock_frame s.pendingKnocks _).2.2.1]
      · intro k hk
        show ((s.pendingKnocks.foldl (fun acc k => moveKnockToPeers acc k.peerId)
            ({ s with knockEnabled := false, creatorId := some cid })).peers.any
          (fun p => p.peerId == k.peerId)) = true
        exact foldl_moveKnock_adds s.pendingKnocks _ k hk
    · rename_i hcond
      have hnil : s.pendingKnocks = [] := by
        cases hks : s.pendingKnocks with
        | nil => rfl
        | cons k0 ks =>
            exfalso
            apply hcond
            show (!false && decide (s.pendingKnocks.length > 0)) = true
            rw [hks]
            simp
      refine ⟨hnil, rfl, ?_⟩
      intro k hk
      rw [hnil] at hk
      cases hk

def c4WitnessState : AppState :=
  { initialState "A" "u" with
    myPeerId := "A", creatorId := some "A", knockEnabled := true,
    pendingKnocks := [⟨"B", "B"⟩, ⟨"C", "C"⟩] }

def c4NonCreatorState : AppState :=
  { initialState "A" "u" with
    myPeerId := "A", creatorId := some "Z", knockEnabled := false,
    pendingKnocks := [⟨"B", "B"⟩] }

theorem c4_mode_off_auto_admission_witness :
    (c4WitnessState.creatorId = some c4WitnessState.myPeerId ∧
     c4WitnessState.knockEnabled = true ∧
     (toggleKnockMode c4WitnessState).1.pendingKnocks = [] ∧
     (toggleKnockMode c4WitnessState).1.knockEnabled = false ∧
     ((toggleKnockMode c4WitnessState).1.peers.any (fun p => p.peerId == "B")) = true ∧
     ((toggleKnockMode c4WitnessState).1.peers.any (fun p => p.peerId == "C")) = true ∧
     (handleKnock c4WitnessState (KnockMsg.mode false "A")).1.pendingKnocks = [] ∧
     ((handleKnock c4WitnessState (KnockMsg.mode false "A")).1.peers.any
       (fun p => p.peerId == "B")) = true) ∧
    (c4NonCreatorState.creatorId ≠ some c4NonCreatorState.myPeerId ∧
     c4NonCreatorState.knockEnabled = false ∧
     (handleKnock c4NonCreatorState (KnockMsg.mode false "Z")).1.pendingKnocks = [] ∧
     (handleKnock c4NonCreatorState (KnockMsg.mode false "Z")).1.knockEnabled = false ∧
     ((handleKnock c4NonCreatorState (KnockMsg.mode false "Z")).1.peers.any
       (fun p => p.peerId == "B")) = true) := by
  have T := c4_mode_off_auto_admission c4WitnessState "A"
  have T1 := T.1 rfl rfl
  have U := c4_mode_off_auto_admission c4NonCreatorState "Z"
  refine ⟨⟨rfl, rfl, T1.1, T1.2.1, ?_, ?_, T.2.1, ?_⟩,
          by decide, rfl, U.2.1, U.2.2.1, ?_⟩
  · exact T1.2.2 ⟨"B", "B"⟩ (by decide)
  · exact T1.2.2 ⟨"C", "C"⟩ (by decide)
  · exact T.2.2.2 ⟨"B", "B"⟩ (by decide)
  · exact U.2.2.2 ⟨"B", "B"⟩ (by decide)

/-- Claim C10: `resolveKnock` is not guarded by a matching pending
knock: for a peer id absent from both the pending-knock list and the
roster, the reply is still sent (the session being active), and on
approval a fresh `Peer` whose username is the raw peer id is appended
to the roster. -/
theorem c10_resolveKnock_unknown (s : AppState) (peerId : String) (approved : Bool)
    (hroom : s.roomJoined = true)
    (hk : s.pendingKnocks.find? (fun k => k.peerId == peerId) = none)
    (hp : (s.peers.any (fun p => p.peerId == peerId)) = false) :
    (resolveKnock s peerId approved).2 =
      [Cmd.sendKnock (KnockMsg.reply peerId approved) none] ∧
    (approved = true →
      (resolveKnock s peerId approved).1.peers =
        s.peers ++ [⟨peerId, peerId, false, false, false⟩]) := by
  constructor
  · show (if s.roomJoined = true then [Cmd.sendKnock (KnockMsg.reply peerId approved) none]
      else []) = _
    rw [ite_cond_true _ hroom]
  · intro ha
    rw [ha]
    show (moveKnockToPeers s peerId).peers = _
    unfold moveKnockToPeers
    rw [ite_cond_false _ hp, hk]
    rfl

theorem c10_resolveKnock_unknown_witness :
    (resolveKnock ({ initialState "A" "u" with roomJoined := true }) "B" true).2 =
      [Cmd.sendKnock (KnockMsg.reply "B" true) none] ∧
    (resolveKnock ({ initialState "A" "u" with roomJoined := true }) "B" true).1.peers =
      ({ initialState "A" "u" with roomJoined := true } : AppState).peers ++
        [⟨"B", "B", false, false, false⟩] := by
  have T := c10_resolveKnock_unknown ({ initialState "A" "u" with roomJoined := true })
    "B" true rfl (by decide) (by decide)
  exact ⟨T.1, T.2 rfl⟩

lemma createRoom_fields (s : AppState) (rand : Nat → Nat) (micOk : Bool) :
    (createRoom s rand micOk).roomCode = genCode rand ∧
    (createRoom s rand micOk).admitted = true ∧
    (createRoom s rand micOk).creatorId = some s.selfId := by
  cases micOk
  · exact ⟨rfl, rfl, rfl⟩
  · exact ⟨rfl, rfl, rfl⟩

/-- Claim C6: a client that joins and processes no admitting signal has
the timer armed, and firing the armed timer while unadmitted makes it
admitted creator of the unchanged room code; the timer is cleared when
an admitting signal is processed while unadmitted, cleared
unconditionally on leave, and a fired timer never promotes a client
that is already admitted or has left. -/
theorem c6_self_promotion_and_timer (s : AppState) (code : String) (micOk : Bool)
    (hcode : (jsTrim (jsToUpper code)).isEmpty = false) :
    (joinRoom s code micOk).admitTimeout = true ∧
    (s.admitTimeout = true → s.admitted = false →
      ((admitTimerFire s).1.admitted = true ∧
       (admitTimerFire s).1.creatorId = some s.selfId ∧
       (admitTimerFire s).1.roomCode = s.roomCode ∧
       (admitTimerFire s).1.admitTimeout = false)) ∧
    (s.admitted = false →
      ((handleKnock s KnockMsg.admitted).1.admitTimeout = false ∧
       (handleKnock s (KnockMsg.reply s.selfId true)).1.admitTimeout = false)) ∧
    (leaveRoom s).admitTimeout = false ∧
    (s.admitted = true → (admitTimerFire s).1 = { s with admitTimeout := false }) ∧
    (admitTimerFire (leaveRoom s)).1 = leaveRoom s := by
  refine ⟨?_, ?_, ?_, rfl, ?_, ?_⟩
  · simp only [joinRoom]
    rw [ite_cond_false _ hcode]
  · intro ht ha
    have ha2 : ({ s with admitTimeout := false } : AppState).admitted = false := ha
    have ha3 :
        ({ s with admitTimeout := false, creatorId := some s.selfId } : AppState).admitted
          = false := ha
    have hfire : (admitTimerFire s).1 =
        (admitSelf { s with admitTimeout := false, creatorId := some s.selfId }).1 := by
      unfold admitTimerFire
      rw [ite_cond_true _ ht]
      rw [ite_cond_false _ ha2]
    rw [hfire]
    unfold admitSelf
    rw [ite_cond_false _ ha3]
    exact ⟨rfl, rfl, rfl, rfl⟩
  · intro ha
    have hcancel : ((admitSelf s).1).admitTimeout = false := by
      unfold admitSelf
      rw [ite_cond_false _ ha]
    refine ⟨hcancel, ?_⟩
    show ((if (s.selfId == s.selfId) = true then admitSelf s else
      if s.admitted = true then (removeKnock (moveKnockToPeers s s.selfId) s.selfId,
        ([] : List Cmd)) else (s, [])) : AppState × List Cmd).1.admitTimeout = false
    rw [ite_cond_true _ (beq_self_eq_true s.selfId)]
    exact hcancel
  · intro ha
    unfold admitTimerFire
    by_cases ht : s.admitTimeout = true
    · have ha2 : ({ s with admitTimeout := false } : AppState).admitted = true := ha
      rw [ite_cond_true _ ht]
      rw [ite_cond_true _ ha2]
    · have ht2 : s.admitTimeout = false := by
        cases h2 : s.admitTimeout with
        | true => exact absurd h2 ht
        | false => rfl
      rw [ite_cond_false _ ht2]
      show s = { s with admitTimeout := false }
      rw [← ht2]
  · unfold admitTimerFire
    rw [ite_cond_false _ (show (leaveRoom s).admitTimeout = false from rfl)]

theorem c6_self_promotion_and_timer_witness :
    (joinRoom (initialState "A" "u") "AAAA" true).admitTimeout = true ∧
    (admitTimerFire (joinRoom (initialState "A" "u") "AAAA" true)).1.admitted = true ∧
    (admitTimerFire (joinRoom (initialState "A" "u") "AAAA" true)).1.creatorId = some "A" ∧
    (admitTimerFire (joinRoom (initialState "A" "u") "AAAA" true)).1.roomCode = "AAAA" ∧
    (admitTimerFire (joinRoom (initialState "A" "u") "AAAA" true)).1.admitTimeout = false ∧
    (leaveRoom (joinRoom (initialState "A" "u") "AAAA" true)).admitTimeout = false ∧
    (admitTimerFire (leaveRoom (joinRoom (initialState "A" "u") "AAAA" true))).1 =
      leaveRoom (joinRoom (initialState "A" "u") "AAAA" true) := by
  have T := c6_self_promotion_and_timer (joinRoom (initialState "A" "u") "AAAA" true)
    "AAAA" true (by decide)
  have h2 := T.2.1 (by decide) (by decide)
  exact ⟨T.1, h2.1, h2.2.1, h2.2.2.1, h2.2.2.2, T.2.2.2.1, T.2.2.2.2.2⟩

/-- Claim C7, counterexample: a client creates a room, a peer joins, and
the client starts whispering to it (the UI records `whisperTarget`
before routing); calling `leaveRoom` mid-whisper leaves the store's
`whisperTarget` at the peer's id instead of resetting it to its pre-join
default `none`. -/
theorem c7_whisperTarget_not_reset :
    (runEvents (initialState "A" "u") [Ev.evCreateRoom (fun _ => 0) true,
      Ev.evPeerJoin "B", Ev.evWhisperStart "B"]).whisperTarget = some "B" ∧
    (leaveRoom (runEvents (initialState "A" "u") [Ev.evCreateRoom (fun _ => 0) true,
      Ev.evPeerJoin "B", Ev.evWhisperStart "B"])).whisperTarget = some "B" ∧
    (initialState "A" "u").whisperTarget = none :=
  ⟨rfl, rfl, rfl⟩

/-- Claim C7 (amended): `leaveRoom` from any state clears the per-peer
routing state, the pending collections, the timer and the room handle,
and resets `peers`, `isTalking`, `knockEnabled`, `admitted`,
`pendingKnocks` and `creatorId` to their pre-join defaults — but it
leaves the store's `whisperTarget` (and the never-written
`knockWaiting`) untouched. -/
theorem c7_leaveRoom_reset (s : AppState) :
    (leaveRoom s).peers = [] ∧
    (leaveRoom s).isTalking = false ∧
    (leaveRoom s).knockEnabled = false ∧
    (leaveRoom s).admitted = true ∧
    (leaveRoom s).pendingKnocks = [] ∧
    (leaveRoom s).creatorId = none ∧
    (leaveRoom s).peerTrackState = [] ∧
    (leaveRoom s).activeWhisperTarget = none ∧
    (leaveRoom s).pendingPeerInfo = [] ∧
    (leaveRoom s).admitTimeout = false ∧
    (leaveRoom s).roomJoined = false ∧
    (leaveRoom s).hasMedia = false ∧
    (leaveRoom s).whisperTarget = s.whisperTarget ∧
    (leaveRoom s).knockWaiting = s.knockWaiting :=
  ⟨rfl, rfl, rfl, rfl, rfl, rfl, rfl, rfl, rfl, rfl, rfl, rfl, rfl, rfl⟩

/-- Claim C5, counterexample: a client joins room `AAAA`, is denied, and
after the cooldown creates a fresh room — but `genCode` draws
independently at random, and with a random source yielding index 0 four
times the new room code is again `AAAA`: the code is not guaranteed to
differ from the rejected room's code. -/
theorem c5_retry_same_code :
    (joinRoom (initialState "A" "u") "AAAA" true).roomCode = "AAAA" ∧
    (handleKnock (joinRoom (initialState "A" "u") "AAAA" true)
      (KnockMsg.reply "A" false)).1.view = "rejected" ∧
    (rejectTimerFire (handleKnock (joinRoom (initialState "A" "u") "AAAA" true)
      (KnockMsg.reply "A" false)).1 (fun _ => 0) true).roomCode = "AAAA" :=
  ⟨rfl, rfl, rfl⟩

/-- Claim C5 (amended): a `reply` denying self puts the client in the
`rejected` view and arms the cooldown; firing the cooldown leaves the
room and creates a brand-new room whose code is a fresh 4-character
draw from the unambiguous alphabet — with no guarantee that it differs
from the rejected room's code. -/
theorem c5_rejection_recovery (s : AppState) (rand : Nat → Nat) (micOk : Bool)
    (hr : s.rejectTimer = true) :
    (handleKnock s (KnockMsg.reply s.selfId false)).1.view = "rejected" ∧
    (handleKnock s (KnockMsg.reply s.selfId false)).1.rejectTimer = true ∧
    rejectTimerFire s rand micOk =
      createRoom (leaveRoom { s with rejectTimer := false }) rand micOk ∧
    (rejectTimerFire s rand micOk).roomCode = genCode rand ∧
    (rejectTimerFire s rand micOk).admitted = true ∧
    (rejectTimerFire s rand micOk).creatorId = some s.selfId ∧
    (genCode rand).length = 4 ∧
    (∀ c ∈ (genCode rand).toList, c ∈ codeChars) := by
  have hb := beq_self_eq_true s.selfId
  have hrej : (handleKnock s (KnockMsg.reply s.selfId false)).1 =
      { s with view := "rejected", rejectTimer := true } := by
    show ((if (s.selfId == s.selfId) = true then
      (if (false : Bool) = true then admitSelf s
       else ({ s with view := "rejected", rejectTimer := true }, ([] : List Cmd)))
      else _) : AppState × List Cmd).1 = _
    rw [ite_cond_true _ hb]
    rfl
  have hfire : rejectTimerFire s rand micOk =
      createRoom (leaveRoom { s with rejectTimer := false }) rand micOk := by
    unfold rejectTimerFire
    rw [ite_cond_true _ hr]
  have hcr := createRoom_fields (leaveRoom { s with rejectTimer := false }) rand micOk
  refine ⟨by rw [hrej], by rw [hrej], hfire, ?_, ?_, ?_, ?_, ?_⟩
  · rw [hfire]; exact hcr.1
  · rw [hfire]; exact hcr.2.1
  · rw [hfire]; exact hcr.2.2
  · rfl
  · intro c hc
    have hc2 : c ∈ (List.range 4).map
        (fun i => codeChars.getD (rand i % codeChars.length) 'A') := hc
    obtain ⟨i, _, hci⟩ := List.mem_map.mp hc2
    have hlt : rand i % codeChars.length < codeChars.length :=
      Nat.mod_lt _ (by decide)
    rw [← hci, List.getD_eq_getElem _ _ hlt]
    exact List.getElem_mem _

theorem c5_rejection_recovery_witness :
    (handleKnock ({ initialState "A" "u" with rejectTimer := true })
      (KnockMsg.reply "A" false)).1.view = "rejected" ∧
    (handleKnock ({ initialState "A" "u" with rejectTimer := true })
      (KnockMsg.reply "A" false)).1.rejectTimer = true ∧
    rejectTimerFire ({ initialState "A" "u" with rejectTimer := true }) (fun _ => 0) true =
      createRoom (leaveRoom { ({ initialState "A" "u" with rejectTimer := true } :
        AppState) with rejectTimer := false }) (fun _ => 0) true ∧
    (rejectTimerFire ({ initialState "A" "u" with rejectTimer := true })
      (fun _ => 0) true).roomCode = genCode (fun _ => 0) ∧
    (rejectTimerFire ({ initialState "A" "u" with rejectTimer := true })
      (fun _ => 0) true).admitted = true ∧
    (rejectTimerFire ({ initialState "A" "u" with rejectTimer := true })
      (fun _ => 0) true).creatorId = some "A" ∧
    (genCode (fun _ => 0)).length = 4 := by
  have T := c5_rejection_recovery ({ initialState "A" "u" with rejectTimer := true })
    (fun _ => 0) true rfl
  exact ⟨T.1, T.2.1, T.2.2.1, T.2.2.2.1, T.2.2.2.2.1, T.2.2.2.2.2.1, T.2.2.2.2.2.2.1⟩

/-- Claim C1 (violated by the code): a creator enables knocking, admits
peer B, then whispers to B; peer C knocks and an approving `reply` for C
arrives mid-whisper.  C enters the roster with no routing entry, so its
effective routing state defaults to `Real`: with the whisper to B still
active, the set of `Real` remote peers is `[B, C]`, not exactly the
whisper target — the knock-admission path never applies whisper
routing to newly admitted peers. -/
theorem c1_whisper_routing_violation :
    (runEvents (initialState "A" "u") [Ev.evCreateRoom (fun _ => 0) true,
      Ev.evToggleKnockMode, Ev.evPeerJoin "B", Ev.evResolveKnock "B" true,
      Ev.evWhisperStart "B", Ev.evPeerJoin "C",
      Ev.evKnockMsg (KnockMsg.reply "C" true)]).activeWhisperTarget = some "B" ∧
    (runEvents (initialState "A" "u") [Ev.evCreateRoom (fun _ => 0) true,
      Ev.evToggleKnockMode, Ev.evPeerJoin "B", Ev.evResolveKnock "B" true,
      Ev.evWhisperStart "B", Ev.evPeerJoin "C",
      Ev.evKnockMsg (KnockMsg.reply "C" true)]).whisperTarget = some "B" ∧
    realRemotePeers (runEvents (initialState "A" "u") [Ev.evCreateRoom (fun _ => 0) true,
      Ev.evToggleKnockMode, Ev.evPeerJoin "B", Ev.evResolveKnock "B" true,
      Ev.evWhisperStart "B", Ev.evPeerJoin "C",
      Ev.evKnockMsg (KnockMsg.reply "C" true)]) = ["B", "C"] ∧
    (["B", "C"] : List String) ≠ ["B"] :=
  ⟨rfl, rfl, rfl, by decide⟩

/-! ## Roster uniqueness (claim C8) -/

/-- The roster-uniqueness invariant: roster ids are pairwise distinct,
the pending-peer-info cache has pairwise-distinct keys, and the local
client's own id is never cached (the transport only reports remote
peers). -/
def RosterInv (s : AppState) : Prop :=
  (s.peers.map (fun p => p.peerId)).Nodup ∧
  (s.pendingPeerInfo.map (fun e => e.1)).Nodup ∧
  s.selfId ∉ s.pendingPeerInfo.map (fun e => e.1)

lemma bool_eq_false_of_ne {b : Bool} (h : ¬ b = true) : b = false := by
  cases b with
  | true => exact absurd rfl h
  | false => rfl

lemma nodup_append_singleton {l : List String} {k : String} (h : l.Nodup) (hk : k ∉ l) :
    (l ++ [k]).Nodup := by
  simp [List.nodup_append, h, hk]

lemma not_mem_ids_of_any_false (l : List Peer) (pid : String)
    (h : (l.any (fun p => p.peerId == pid)) = false) :
    pid ∉ l.map (fun p => p.peerId) := by
  intro hmem
  obtain ⟨p, hp, hpe⟩ := List.mem_map.mp hmem
  rw [List.any_eq_false] at h
  exact h p hp (by rw [hpe]; exact beq_self_eq_true _)

lemma mapSet_keys_of_any_true {α : Type} (m : List (String × α)) (k : String) (v : α)
    (h : (m.any (fun e => e.1 == k)) = true) :
    (mapSet m k v).map (fun e => e.1) = m.map (fun e => e.1) := by
  unfold mapSet
  rw [ite_cond_true _ h, List.map_map]
  refine List.map_congr_left (fun e _ => ?_)
  show (if (e.1 == k) = true then (k, v) else e).1 = e.1
  by_cases he : (e.1 == k) = true
  · rw [if_pos he]
    exact (eq_of_beq he).symm
  · rw [if_neg he]

lemma mapSet_keys_of_any_false {α : Type} (m : List (String × α)) (k : String) (v : α)
    (h : (m.any (fun e => e.1 == k)) = false) :
    (mapSet m k v).map (fun e => e.1) = m.map (fun e => e.1) ++ [k] ∧
      k ∉ m.map (fun e => e.1) := by
  unfold mapSet
  rw [ite_cond_false _ h]
  refine ⟨by simp, ?_⟩
  intro hk
  obtain ⟨e, he, hek⟩ := List.mem_map.mp hk
  rw [List.any_eq_false] at h
  exact h e he (by rw [hek]; exact beq_self_eq_true _)

lemma mapSet_keys_nodup {α : Type} (m : List (String × α)) (k : String) (v : α)
    (h : (m.map (fun e => e.1)).Nodup) :
    ((mapSet m k v).map (fun e => e.1)).Nodup := by
  cases ha : m.any (fun e => e.1 == k) with
  | true => rw [mapSet_keys_of_any_true m k v ha]; exact h
  | false =>
      obtain ⟨heq, hmem⟩ := mapSet_keys_of_any_false m k v ha
      rw [heq]
      exact nodup_append_singleton h hmem

lemma mapSet_keys_mem {α : Type} (m : List (String × α)) (k : String) (v : α) (x : String)
    (hx : x ∈ (mapSet m k v).map (fun e => e.1)) :
    x ∈ m.map (fun e => e.1) ∨ x = k := by
  cases ha : m.any (fun e => e.1 == k) with
  | true =>
      rw [mapSet_keys_of_any_true m k v ha] at hx
      exact Or.inl hx
  | false =>
      rw [(mapSet_keys_of_any_false m k v ha).1] at hx
      rcases List.mem_append.mp hx with h | h
      · exact Or.inl h
      · exact Or.inr (List.mem_singleton.mp h)

lemma mapDelete_keys_sublist {α : Type} (m : List (String × α)) (k : String) :
    ((mapDelete m k).map (fun e => e.1)).Sublist (m.map (fun e => e.1)) :=
  (List.filter_sublist m).map _

lemma updatePeer_ids (s : AppState) (pid : String) (f : Peer → Peer)
    (hf : ∀ p, (f p).peerId = p.peerId) :
    (updatePeer s pid f).peers.map (fun p => p.peerId) =
      s.peers.map (fun p => p.peerId) := by
  show (s.peers.map (fun p => if p.peerId == pid then f p else p)).map
    (fun p => p.peerId) = _
  rw [List.map_map]
  refine List.map_congr_left (fun p _ => ?_)
  show (if (p.peerId == pid) = true then f p else p).peerId = p.peerId
  by_cases h : (p.peerId == pid) = true
  · rw [if_pos h]; exact hf p
  · rw [if_neg h]

lemma moveKnockToPeers_ids_nodup (s : AppState) (pid : String)
    (h : (s.peers.map (fun p => p.peerId)).Nodup) :
    ((moveKnockToPeers s pid).peers.map (fun p => p.peerId)).Nodup := by
  unfold moveKnockToPeers
  cases hm : s.peers.any (fun p => p.peerId == pid) with
  | true => exact h
  | false =>
      show ((s.peers ++ [makePeer pid
        ((s.pendingKnocks.find? (fun k => k.peerId == pid)).map (fun k => k.username))]).map
          (fun p => p.peerId)).Nodup
      rw [List.map_append]
      exact nodup_append_singleton h (not_mem_ids_of_any_false s.peers pid hm)

lemma foldl_moveKnock_ids_nodup (ks : List KnockRequest) :
    ∀ (s : AppState), (s.peers.map (fun p => p.peerId)).Nodup →
      ((ks.foldl (fun acc k => moveKnockToPeers acc k.peerId) s).peers.map
        (fun p => p.peerId)).Nodup := by
  induction ks with
  | nil => intro s h; exact h
  | cons k ks ih =>
      intro s h
      exact ih _ (moveKnockToPeers_ids_nodup s k.peerId h)

lemma mapGet_isSome_eq_any {α : Type} (m : List (String × α)) (k : String) :
    (mapGet m k).isSome = m.any (fun e => e.1 == k) := by
  unfold mapGet
  induction m with
  | nil => rfl
  | cons e m ih =>
      cases he : (e.1 == k) with
      | true => simp [List.find?, he]
      | false => simp [List.find?, he, ih]

lemma admitSelf_inv (s : AppState) (hinv : RosterInv s) : RosterInv (admitSelf s).1 := by
  unfold admitSelf
  cases ha : s.admitted with
  | true => exact hinv
  | false =>
      refine ⟨?_, List.nodup_nil, List.not_mem_nil _⟩
      show ((makePeer s.selfId (some s.username) ::
        s.pendingPeerInfo.map (fun e => makePeer e.1 (some e.2))).map
          (fun p => p.peerId)).Nodup
      rw [List.map_cons, List.map_map]
      have hids : s.pendingPeerInfo.map
          ((fun p => p.peerId) ∘ (fun e => makePeer e.1 (some e.2))) =
          s.pendingPeerInfo.map (fun e => e.1) :=
        List.map_congr_left (fun e _ => rfl)
      rw [hids]
      exact List.nodup_cons.mpr ⟨hinv.2.2, hinv.2.1⟩

/-- One event step preserves `RosterInv` and the transport-assigned
`selfId`. -/
def InvStep (s t : AppState) : Prop :=
  (RosterInv s → RosterInv t) ∧ t.selfId = s.selfId

lemma admitSelf_selfId (s : AppState) : ((admitSelf s).1).selfId = s.selfId := by
  unfold admitSelf
  cases ha : s.admitted with
  | true => rfl
  | false => rfl

lemma moveKnockToPeers_inv (s : AppState) (pid : String) (hinv : RosterInv s) :
    RosterInv (moveKnockToPeers s pid) := by
  refine ⟨moveKnockToPeers_ids_nodup s pid hinv.1, ?_, ?_⟩
  · rw [(moveKnockToPeers_frame s pid).2.2.2]
    exact hinv.2.1
  · rw [(moveKnockToPeers_frame s pid).2.1, (moveKnockToPeers_frame s pid).2.2.2]
    exact hinv.2.2

lemma foldl_moveKnock_inv (ks : List KnockRequest) (s : AppState) (hinv : RosterInv s) :
    RosterInv (ks.foldl (fun acc k => moveKnockToPeers acc k.peerId) s) := by
  refine ⟨foldl_moveKnock_ids_nodup ks s hinv.1, ?_, ?_⟩
  · rw [(foldl_moveKnock_frame ks s).2.2.2]
    exact hinv.2.1
  · rw [(foldl_moveKnock_frame ks s).2.1, (foldl_moveKnock_frame ks s).2.2.2]
    exact hinv.2.2

lemma invStep_updatePeer (s : AppState) (pid : String) (f : Peer → Peer)
    (hf : ∀ p, (f p).peerId = p.peerId) : InvStep s (updatePeer s pid f) := by
  constructor
  · intro hinv
    refine ⟨?_, hinv.2.1, hinv.2.2⟩
    rw [updatePeer_ids s pid f hf]
    exact hinv.1
  · rfl

lemma invStep_leaveRoom (s : AppState) : InvStep s (leaveRoom s) :=
  ⟨fun _ => ⟨List.nodup_nil, List.nodup_nil, List.not_mem_nil _⟩, rfl⟩

lemma invStep_createRoom (s : AppState) (rand : Nat → Nat) (micOk : Bool) :
    InvStep s (createRoom s rand micOk) := by
  cases micOk
  · exact ⟨fun hinv => ⟨List.nodup_singleton _, hinv.2.1, hinv.2.2⟩, rfl⟩
  · exact ⟨fun hinv => ⟨List.nodup_singleton _, hinv.2.1, hinv.2.2⟩, rfl⟩

lemma invStep_joinRoom (s : AppState) (code : String) (micOk : Bool) :
    InvStep s (joinRoom s code micOk) := by
  simp only [joinRoom]
  split
  · exact ⟨fun h => h, rfl⟩
  · cases micOk
    · exact ⟨fun hinv => ⟨List.nodup_nil, hinv.2.1, hinv.2.2⟩, rfl⟩
    · exact ⟨fun hinv => ⟨List.nodup_nil, hinv.2.1, hinv.2.2⟩, rfl⟩

lemma invStep_handleKnock (s : AppState) (msg : KnockMsg) :
    InvStep s (handleKnock s msg).1 := by
  cases msg with
  | required => exact ⟨fun h => h, rfl⟩
  | admitted => exact ⟨admitSelf_inv s, admitSelf_selfId s⟩
  | mode enabled creatorId =>
      simp only [handleKnock]
      split
      · constructor
        · intro hinv
          exact foldl_moveKnock_inv _ _ hinv
        · exact (foldl_moveKnock_frame _ _).2.1
      · exact ⟨fun h => h, rfl⟩
  | reply target approved =>
      simp only [handleKnock]
      split
      · split
        · exact ⟨admitSelf_inv s, admitSelf_selfId s⟩
        · exact ⟨fun h => h, rfl⟩
      · split
        · split
          · constructor
            · intro hinv
              exact moveKnockToPeers_inv s target hinv
            · exact (moveKnockToPeers_frame s target).2.1
          · exact ⟨fun h => h, rfl⟩
        · exact ⟨fun h => h, rfl⟩

lemma invStep_handleUsername (s : AppState) (username peerId : String) :
    InvStep s (handleUsername s username peerId) := by
  have hu := updatePeer_ids s peerId (fun p => { p with username := username })
    (fun p => rfl)
  have leafKeep : ∀ t : AppState,
      t.peers.map (fun p => p.peerId) = s.peers.map (fun p => p.peerId) →
      t.pendingPeerInfo = s.pendingPeerInfo → t.selfId = s.selfId → InvStep s t := by
    intro t h1 h2 h3
    constructor
    · intro hinv
      refine ⟨?_, ?_, ?_⟩
      · rw [h1]; exact hinv.1
      · rw [h2]; exact hinv.2.1
      · rw [h3, h2]; exact hinv.2.2
    · exact h3
  have leafSet : ∀ t : AppState,
      t.peers.map (fun p => p.peerId) = s.peers.map (fun p => p.peerId) →
      t.pendingPeerInfo = mapSet s.pendingPeerInfo peerId username →
      t.selfId = s.selfId →
      (s.pendingPeerInfo.any (fun e => e.1 == peerId)) = true → InvStep s t := by
    intro t h1 h2 h3 hany
    constructor
    · intro hinv
      refine ⟨?_, ?_, ?_⟩
      · rw [h1]; exact hinv.1
      · rw [h2, mapSet_keys_of_any_true _ _ _ hany]; exact hinv.2.1
      · rw [h3, h2, mapSet_keys_of_any_true _ _ _ hany]; exact hinv.2.2
    · exact h3
  simp only [handleUsername]
  split
  · split
    · rename_i hsome
      refine leafSet _ hu rfl rfl ?_
      rw [← mapGet_isSome_eq_any]
      exact hsome
    · exact leafKeep _ hu rfl rfl
  · split
    · rename_i hsome
      refine leafSet _ hu rfl rfl ?_
      rw [← mapGet_isSome_eq_any]
      exact hsome
    · exact leafKeep _ hu rfl rfl

lemma invStep_onPeerJoin (s : AppState) (pid : String) (hpid : pid ≠ s.selfId) :
    InvStep s (onPeerJoin s pid).1 := by
  simp only [onPeerJoin]
  split
  · split
    · split
      · exact ⟨fun h => h, rfl⟩
      · exact ⟨fun h => h, rfl⟩
    · split
      · repeat' split
        all_goals exact ⟨fun h => h, rfl⟩
      · rename_i hmem
        have hmem2 := bool_eq_false_of_ne hmem
        have hstep : InvStep s
            ({ s with peers := s.peers ++ [makePeer pid none] } : AppState) := by
          constructor
          · intro hinv
            refine ⟨?_, hinv.2.1, hinv.2.2⟩
            show ((s.peers ++ [makePeer pid none]).map (fun p => p.peerId)).Nodup
            rw [List.map_append]
            exact nodup_append_singleton hinv.1
              (not_mem_ids_of_any_false s.peers pid hmem2)
          · rfl
        repeat' split
        all_goals exact hstep
  · constructor
    · intro hinv
      refine ⟨hinv.1, mapSet_keys_nodup _ _ _ hinv.2.1, ?_⟩
      intro hmem
      rcases mapSet_keys_mem _ _ _ _ hmem with h | h
      · exact hinv.2.2 h
      · exact hpid h.symm
    · rfl

lemma invStep_onPeerLeave (s : AppState) (pid : String) :
    InvStep s (onPeerLeave s pid) := by
  have h1 : ∀ hinv : RosterInv s,
      ((s.peers.filter (fun p => !(p.peerId == pid))).map (fun p => p.peerId)).Nodup :=
    fun hinv => hinv.1.sublist ((List.filter_sublist s.peers).map _)
  have h2 : ∀ hinv : RosterInv s,
      ((mapDelete s.pendingPeerInfo pid).map (fun e => e.1)).Nodup :=
    fun hinv => hinv.2.1.sublist (mapDelete_keys_sublist s.pendingPeerInfo pid)
  have h3 : ∀ hinv : RosterInv s,
      s.selfId ∉ (mapDelete s.pendingPeerInfo pid).map (fun e => e.1) :=
    fun hinv hm => hinv.2.2 ((mapDelete_keys_sublist s.pendingPeerInfo pid).subset hm)
  simp only [onPeerLeave]
  split
  · exact ⟨fun hinv => ⟨h1 hinv, h2 hinv, h3 hinv⟩, rfl⟩
  · exact ⟨fun hinv => ⟨h1 hinv, h2 hinv, h3 hinv⟩, rfl⟩

lemma invStep_startWhisper (s : AppState) (t : String) :
    InvStep s (startWhisper s t).1 := by
  simp only [startWhisper]
  split
  · exact ⟨fun h => h, rfl⟩
  · exact ⟨fun h => h, rfl⟩

lemma invStep_stopWhisper (s : AppState) (t : String) :
    InvStep s (stopWhisper s t).1 := by
  simp only [stopWhisper]
  split
  · exact ⟨fun h => h, rfl⟩
  · exact ⟨fun h => h, rfl⟩

lemma invStep_whisperStartUi (s : AppState) (pid : String) :
    InvStep s (whisperStartUi s pid).1 := by
  simp only [whisperStartUi]
  split
  · exact ⟨fun h => h, rfl⟩
  · have h := invStep_startWhisper ({ s with whisperTarget := some pid }) pid
    exact ⟨fun hinv => h.1 hinv, h.2⟩

lemma invStep_whisperStopUi (s : AppState) : InvStep s (whisperStopUi s).1 := by
  simp only [whisperStopUi]
  split
  · exact ⟨fun h => h, rfl⟩
  · rename_i t _
    have h := invStep_stopWhisper ({ s with whisperTarget := none }) t
    exact ⟨fun hinv => h.1 hinv, h.2⟩

lemma invStep_toggleKnockMode (s : AppState) : InvStep s (toggleKnockMode s).1 := by
  simp only [toggleKnockMode]
  split
  · exact ⟨fun h => h, rfl⟩
  · rw [pairFoldl_moveKnock_fst]
    split
    · constructor
      · intro hinv
        exact foldl_moveKnock_inv _ _ hinv
      · exact (foldl_moveKnock_frame _ _).2.1
    · exact ⟨fun h => h, rfl⟩

lemma invStep_resolveKnock (s : AppState) (pid : String) (approved : Bool) :
    InvStep s (resolveKnock s pid approved).1 := by
  simp only [resolveKnock]
  split
  · constructor
    · intro hinv
      exact moveKnockToPeers_inv s pid hinv
    · exact (moveKnockToPeers_frame s pid).2.1
  · exact ⟨fun h => h, rfl⟩

lemma invStep_admitTimerFire (s : AppState) : InvStep s (admitTimerFire s).1 := by
  simp only [admitTimerFire]
  split
  · split
    · exact ⟨fun h => h, rfl⟩
    · exact ⟨fun hinv => admitSelf_inv _ hinv, admitSelf_selfId _⟩
  · exact ⟨fun h => h, rfl⟩

lemma invStep_rejectTimerFire (s : AppState) (rand : Nat → Nat) (micOk : Bool) :
    InvStep s (rejectTimerFire s rand micOk) := by
  simp only [rejectTimerFire]
  split
  · have h1 := invStep_createRoom (leaveRoom ({ s with rejectTimer := false })) rand micOk
    have h2 := invStep_leaveRoom ({ s with rejectTimer := false } : AppState)
    exact ⟨fun hinv => h1.1 (h2.1 hinv), h1.2⟩
  · exact ⟨fun h => h, rfl⟩

lemma stepEv_invStep (s : AppState) (e : Ev) (hval : ValidEv s.selfId e) :
    InvStep s (stepEv s e) := by
  cases e with
  | evCreateRoom rand micOk => exact invStep_createRoom s rand micOk
  | evJoinRoom code micOk => exact invStep_joinRoom s code micOk
  | evLeaveRoom => exact invStep_leaveRoom s
  | evPeerJoin pid => exact invStep_onPeerJoin s pid hval
  | evPeerLeave pid => exact invStep_onPeerLeave s pid
  | evKnockMsg msg => exact invStep_handleKnock s msg
  | evUsernameMsg username fromId => exact invStep_handleUsername s username fromId
  | evTalkingMsg b fromId => exact invStep_updatePeer s fromId _ (fun p => rfl)
  | evWhisperMsg b fromId => exact invStep_updatePeer s fromId _ (fun p => rfl)
  | evRenameMsg username fromId => exact invStep_updatePeer s fromId _ (fun p => rfl)
  | evIdleMsg b fromId => exact invStep_updatePeer s fromId _ (fun p => rfl)
  | evVisibility b => exact invStep_updatePeer s s.selfId _ (fun p => rfl)
  | evWhisperStart pid => exact invStep_whisperStartUi s pid
  | evWhisperStop => exact invStep_whisperStopUi s
  | evToggleKnockMode => exact invStep_toggleKnockMode s
  | evResolveKnock pid approved => exact invStep_resolveKnock s pid approved
  | evAdmitTimerFire => exact invStep_admitTimerFire s
  | evRejectTimerFire rand micOk => exact invStep_rejectTimerFire s rand micOk

lemma runEvents_inv (a : String) : ∀ (evs : List Ev) (s : AppState), s.selfId = a →
    (∀ e ∈ evs, ValidEv a e) → RosterInv s →
    RosterInv (runEvents s evs) ∧ (runEvents s evs).selfId = a := by
  intro evs
  induction evs with
  | nil => intro s hs _ hinv; exact ⟨hinv, hs⟩
  | cons e evs ih =>
      intro s hs hv hinv
      have hval : ValidEv s.selfId e := by
        rw [hs]
        exact hv e (List.mem_cons_self e evs)
      have hstep := stepEv_invStep s e hval
      exact ih (stepEv s e) (hstep.2.trans hs)
        (fun e2 he2 => hv e2 (List.mem_cons_of_mem _ he2)) (hstep.1 hinv)

/-- Claim C8: roster uniqueness.  Starting from the initial state, after
any sequence of transport, message, timer and UI events (the transport
reporting only remote peer joins), the roster contains at most one
entry per peer id. -/
theorem c8_roster_unique (a u : String) (evs : List Ev)
    (hvalid : ∀ e ∈ evs, ValidEv a e) :
    ((runEvents (initialState a u) evs).peers.map (fun p => p.peerId)).Nodup :=
  (runEvents_inv a evs (initialState a u) rfl hvalid
    ⟨List.nodup_nil, List.nodup_nil, List.not_mem_nil _⟩).1.1

theorem c8_roster_unique_witness :
    ((runEvents (initialState "A" "u") [Ev.evPeerJoin "B",
      Ev.evKnockMsg (KnockMsg.reply "B" true)]).peers.map
        (fun p => p.peerId)).Nodup := by
  have hv : ∀ e ∈ ([Ev.evPeerJoin "B",
      Ev.evKnockMsg (KnockMsg.reply "B" true)] : List Ev), ValidEv "A" e := by
    intro e he
    rcases List.mem_cons.mp he with rfl | he2
    · exact (by decide : ("B" : String) ≠ "A")
    · rcases List.mem_cons.mp he2 with rfl | he3
      · exact trivial
      · cases he3
  exact c8_roster_unique "A" "u" _ hv

end Murmur
